import Mathlib

/-!
Verification of the ai4food data-transform and cross-validation training pipeline.

The Python arrays are embedded shallowly: a numpy array is a shape together with a
total indexing function; slicing, padding and rotation are index remappings that
follow numpy semantics exactly (Python `//` on ints is Euclidean division by a
positive constant, which is Lean's `Int` division).
-/

namespace AI4Food

/-- Normalization of one Python slice bound `i` against an axis of length `n`:
a negative bound counts from the end (clamped below at 0), a non-negative bound is
clamped above at `n`. -/
def pyIdx (n : Nat) (i : Int) : Nat :=
  if i < 0 then ((n : Int) + i).toNat else min i.toNat n

/-- A 4-dimensional numpy array [T, D, H, W] (time, channel, height, width) of
rational reflectance values; `data` is the total indexing function. -/
structure Image4 where
  T : Nat
  D : Nat
  H : Nat
  W : Nat
  data : Nat → Nat → Nat → Nat → Rat

/-- A 2-dimensional numpy array [H, W]: the field mask. -/
structure Image2 where
  H : Nat
  W : Nat
  data : Nat → Nat → Rat

/-- A 2-dimensional stack [T, D]: the result of averaging out the spatial axes. -/
structure ImageTD where
  T : Nat
  D : Nat
  data : Nat → Nat → Rat

/-- `image_stack[:, :, a:b, :]` — slice the height axis with Python bounds. -/
def Image4.sliceH (img : Image4) (a b : Int) : Image4 :=
  ⟨img.T, img.D, pyIdx img.H b - pyIdx img.H a, img.W,
    fun t d h w => img.data t d (pyIdx img.H a + h) w⟩

/-- `image_stack[:, :, :, a:b]` — slice the width axis with Python bounds. -/
def Image4.sliceW (img : Image4) (a b : Int) : Image4 :=
  ⟨img.T, img.D, img.H, pyIdx img.W b - pyIdx img.W a,
    fun t d h w => img.data t d h (pyIdx img.W a + w)⟩

/-- `mask[a:b, :]`. -/
def Image2.sliceH (m : Image2) (a b : Int) : Image2 :=
  ⟨pyIdx m.H b - pyIdx m.H a, m.W, fun h w => m.data (pyIdx m.H a + h) w⟩

/-- `mask[:, a:b]`. -/
def Image2.sliceW (m : Image2) (a b : Int) : Image2 :=
  ⟨m.H, pyIdx m.W b - pyIdx m.W a, fun h w => m.data h (pyIdx m.W a + w)⟩

/-- `np.pad(image_stack, ((0,0),(0,0),(before,after),(0,0)))` — zero-pad the height axis. -/
def Image4.padH (img : Image4) (before after : Nat) : Image4 :=
  ⟨img.T, img.D, before + img.H + after, img.W,
    fun t d h w => if before ≤ h ∧ h < before + img.H then img.data t d (h - before) w else 0⟩

/-- `np.pad(image_stack, ((0,0),(0,0),(0,0),(before,after)))` — zero-pad the width axis. -/
def Image4.padW (img : Image4) (before after : Nat) : Image4 :=
  ⟨img.T, img.D, img.H, before + img.W + after,
    fun t d h w => if before ≤ w ∧ w < before + img.W then img.data t d h (w - before) else 0⟩

/-- `np.pad(mask, ((before,after),(0,0)))`. -/
def Image2.padH (m : Image2) (before after : Nat) : Image2 :=
  ⟨before + m.H + after, m.W,
    fun h w => if before ≤ h ∧ h < before + m.H then m.data (h - before) w else 0⟩

/-- `np.pad(mask, ((0,0),(before,after)))`. -/
def Image2.padW (m : Image2) (before after : Nat) : Image2 :=
  ⟨m.H, before + m.W + after,
    fun h w => if before ≤ w ∧ w < before + m.W then m.data h (w - before) else 0⟩

/-- One counter-clockwise quarter turn of the spatial plane: `np.rot90` once, in
axes [2,3].  The result has shape (W, H) and `out[i, j] = in[j, W - 1 - i]`. -/
def rotOnce4 (img : Image4) : Image4 :=
  ⟨img.T, img.D, img.W, img.H, fun t d i j => img.data t d j (img.W - 1 - i)⟩

/-- One counter-clockwise quarter turn of the mask. -/
def rotOnce2 (m : Image2) : Image2 :=
  ⟨m.W, m.H, fun i j => m.data j (m.W - 1 - i)⟩

/-- `np.rot90(image_stack, k, [2, 3])`: `k` quarter turns of the spatial plane. -/
def rot90_4 (img : Image4) : Nat → Image4
  | 0 => img
  | k + 1 => rotOnce4 (rot90_4 img k)

/-- `np.rot90(mask, k)`. -/
def rot90_2 (m : Image2) : Nat → Image2
  | 0 => m
  | k + 1 => rotOnce2 (rot90_2 m k)

/-!  `custom_data_transform.crop_or_pad_to_size`, line by line.  `hpad` and `wpad` are
computed once from the incoming shape; each code line becomes one helper applied in
the source order (crop H, crop W, pad H, pad W).  Python's `int(np.floor(hpad))` and
`int(np.ceil(hpad))` on the integer `hpad` are `hpad` itself, so the crop slice is
`[-hpad // 2 : hpad // 2]`; the pad amounts are `floor(hpad / 2)` and `ceil(hpad / 2)`,
i.e. `hpad / 2` and `(hpad + 1) / 2` in floor division. -/

/-- `if hpad < 0: image_stack = image_stack[:, :, -c(hpad) // 2:f(hpad) // 2, :]` (and mask). -/
def copCropH (hpad : Int) (p : Image4 × Image2) : Image4 × Image2 :=
  if hpad < 0 then (p.1.sliceH ((-hpad) / 2) (hpad / 2), p.2.sliceH ((-hpad) / 2) (hpad / 2))
  else p

/-- `if wpad < 0: image_stack = image_stack[:, :, :, -c(wpad) // 2:f(wpad) // 2]` (and mask). -/
def copCropW (wpad : Int) (p : Image4 × Image2) : Image4 × Image2 :=
  if wpad < 0 then (p.1.sliceW ((-wpad) / 2) (wpad / 2), p.2.sliceW ((-wpad) / 2) (wpad / 2))
  else p

/-- `if hpad > 0: padding = (f(hpad / 2), c(hpad / 2)); np.pad ...`. -/
def copPadH (hpad : Int) (p : Image4 × Image2) : Image4 × Image2 :=
  if hpad > 0 then (p.1.padH (hpad / 2).toNat ((hpad + 1) / 2).toNat,
                    p.2.padH (hpad / 2).toNat ((hpad + 1) / 2).toNat)
  else p

/-- `if wpad > 0: padding = (f(wpad / 2), c(wpad / 2)); np.pad ...`. -/
def copPadW (wpad : Int) (p : Image4 × Image2) : Image4 × Image2 :=
  if wpad > 0 then (p.1.padW (wpad / 2).toNat ((wpad + 1) / 2).toNat,
                    p.2.padW (wpad / 2).toNat ((wpad + 1) / 2).toNat)
  else p

/-- `crop_or_pad_to_size(image_stack, mask, image_size)`. -/
def crop_or_pad_to_size (img : Image4) (mask : Image2) (image_size : Nat) :
    Image4 × Image2 :=
  let hpad : Int := (image_size : Int) - (img.H : Int)
  let wpad : Int := (image_size : Int) - (img.W : Int)
  copPadW wpad (copPadH hpad (copCropW wpad (copCropH hpad (img, mask))))

/-- `random_crop(image_stack, mask, image_size)` with the two draws
`h = np.random.randint(image_size, H - image_size // 2)` (and `w`) made explicit
arguments.  The two skip guards and the slice bounds follow the source:
`image_stack[:, :, h - size//2 : h + size//2, w - size//2 : w + size//2]`. -/
def random_crop (img : Image4) (mask : Image2) (image_size : Nat) (h w : Nat) :
    Image4 × Image2 :=
  if (img.H : Int) - (image_size : Int) / 2 ≤ (image_size : Int) then (img, mask)
  else if (img.W : Int) - (image_size : Int) / 2 ≤ (image_size : Int) then (img, mask)
  else
    ((img.sliceH ((h : Int) - (image_size : Int) / 2) ((h : Int) + (image_size : Int) / 2)).sliceW
        ((w : Int) - (image_size : Int) / 2) ((w : Int) + (image_size : Int) / 2),
     (mask.sliceH ((h : Int) - (image_size : Int) / 2) ((h : Int) + (image_size : Int) / 2)).sliceW
        ((w : Int) - (image_size : Int) / 2) ((w : Int) + (image_size : Int) / 2))

/-- The pixels selected by the boolean index `mask > 0`. -/
def maskedPixels (mask : Image2) : Finset (Nat × Nat) :=
  (Finset.range mask.H ×ˢ Finset.range mask.W).filter (fun p => 0 < mask.data p.1 p.2)

/-- `image_stack[:, :, mask > 0].mean(2)`: per time stamp and channel, the mean of
the image over the pixels where the mask is positive. -/
def maskedMeanStack (img : Image4) (mask : Image2) : ImageTD :=
  ⟨img.T, img.D,
    fun t d => (∑ p ∈ maskedPixels mask, img.data t d p.1 p.2) / ((maskedPixels mask).card : Rat)⟩

/-- Lines 61-66 applied to one entry: scale by the sensor constant `1e-4`; if
`normalize`, subtract `0.1014` plus the per-sample jitter `e1` and divide by `0.1171`
plus the per-sample jitter `e2`.  The two jitters are the two scalar draws
`np.random.normal(scale=0.01)`. -/
def post_scale (normalize : Bool) (e1 e2 : Rat) (x : Rat) : Rat :=
  if normalize then (x * (1 / 10000) - (1014 / 10000 + e1)) / (1171 / 10000 + e2)
  else x * (1 / 10000)

/-- The spatial branch of `EOTransformer.transform` (lines 40-49), before scaling:
random crop when both spatial dimensions reach `image_size`, crop-or-pad to exact
size, then `rot` quarter turns of image and mask. -/
def spatial_pipeline (image_size : Nat) (rot ch cw : Nat) (img : Image4) (mask : Image2) :
    Image4 × Image2 :=
  let p1 := if image_size ≤ img.H ∧ image_size ≤ img.W then random_crop img mask image_size ch cw
            else (img, mask)
  let p2 := crop_or_pad_to_size p1.1 p1.2 image_size
  (rot90_4 p2.1 rot, rot90_2 p2.2 rot)

/-- Result of `EOTransformer.transform`: a [T, D] stack with the constant `-1` mask in
the non-spatial branch, or an image/mask pair in the spatial branch. -/
inductive TransResult where
  | nonspatial (v : ImageTD) (mask : Int)
  | spatial (img : Image4) (mask : Image2)

/-- The transformer's constructor arguments. -/
structure EOTransformer where
  spatial_encoder : Bool
  normalize : Bool
  image_size : Nat

/-- `EOTransformer.transform(image_stack, mask)` with the randomness (`rot` for the
rotation draw, `ch`/`cw` for the random-crop center, `e1`/`e2` for the two Gaussian
jitters) made explicit arguments. -/
def EOTransformer.transform (tr : EOTransformer) (rot ch cw : Nat) (e1 e2 : Rat)
    (img : Image4) (mask : Image2) : TransResult :=
  match tr.spatial_encoder with
  | false =>
    let v := maskedMeanStack img mask
    TransResult.nonspatial ⟨v.T, v.D, fun t d => post_scale tr.normalize e1 e2 (v.data t d)⟩ (-1)
  | true =>
    let p := spatial_pipeline tr.image_size rot ch cw img mask
    TransResult.spatial
      ⟨p.1.T, p.1.D, p.1.H, p.1.W,
        fun t d h w => post_scale tr.normalize e1 e2 (p.1.data t d h w)⟩
      p.2

/-- The image component of a transform result, as one total indexing function (the
non-spatial [T, D] stack ignores the spatial indices). -/
def transImage (r : TransResult) : Nat → Nat → Nat → Nat → Rat :=
  match r with
  | TransResult.nonspatial v _ => fun t d _ _ => v.data t d
  | TransResult.spatial i _ => i.data

/-- The height ops of `crop_or_pad_to_size` in source order: crop then pad. -/
def axisH (hpad : Int) (p : Image4 × Image2) : Image4 × Image2 :=
  copPadH hpad (copCropH hpad p)

/-- The width ops of `crop_or_pad_to_size` in source order: crop then pad. -/
def axisW (wpad : Int) (p : Image4 × Image2) : Image4 × Image2 :=
  copPadW wpad (copCropW wpad p)

/-- Source index for one spatial axis of `crop_or_pad_to_size`: an axis of length `n`
brought to length `s` reads output index `i` from input index `axSrc n s i`; `none`
means the position is freshly zero-padded.  Cropping drops `(n-s)/2` leading entries,
hence `ceil((n-s)/2)` trailing ones when the difference is odd; padding inserts
`(s-n)/2` leading zeros, hence `ceil((s-n)/2)` trailing zeros when odd. -/
def axSrc (n s i : Nat) : Option Nat :=
  if s < n then some (i + (n - s) / 2)
  else if n < s then
    if (s - n) / 2 ≤ i ∧ i < (s - n) / 2 + n then some (i - (s - n) / 2) else none
  else some i

theorem copCropW_copPadH_comm (hpad wpad : Int) (p : Image4 × Image2) :
    copCropW wpad (copPadH hpad p) = copPadH hpad (copCropW wpad p) := by
  unfold copCropW copPadH
  split_ifs <;> rfl

theorem crop_or_pad_eq_axes (img : Image4) (mask : Image2) (s : Nat) :
    crop_or_pad_to_size img mask s =
      axisW ((s : Int) - img.W) (axisH ((s : Int) - img.H) (img, mask)) := by
  unfold crop_or_pad_to_size axisW axisH
  rw [copCropW_copPadH_comm]

theorem axisH_spec (img : Image4) (mask : Image2) (s : Nat) (hm : mask.H = img.H) :
    (axisH ((s : Int) - img.H) (img, mask)).1.T = img.T ∧
    (axisH ((s : Int) - img.H) (img, mask)).1.D = img.D ∧
    (axisH ((s : Int) - img.H) (img, mask)).1.H = s ∧
    (axisH ((s : Int) - img.H) (img, mask)).1.W = img.W ∧
    (axisH ((s : Int) - img.H) (img, mask)).2.H = s ∧
    (axisH ((s : Int) - img.H) (img, mask)).2.W = mask.W ∧
    (∀ t d h w, (axisH ((s : Int) - img.H) (img, mask)).1.data t d h w =
      match axSrc img.H s h with
      | some h0 => img.data t d h0 w
      | none => 0) ∧
    (∀ h w, (axisH ((s : Int) - img.H) (img, mask)).2.data h w =
      match axSrc img.H s h with
      | some h0 => mask.data h0 w
      | none => 0) := by
  rcases lt_trichotomy s img.H with hlt | heq | hgt
  · have hneg : (s : Int) - img.H < 0 := by omega
    have hpos : ¬ ((s : Int) - img.H > 0) := by omega
    have hstart : pyIdx img.H ((-((s : Int) - img.H)) / 2) = (img.H - s) / 2 := by
      unfold pyIdx; split_ifs <;> omega
    have hstop : pyIdx img.H (((s : Int) - img.H) / 2) = img.H - (img.H - s + 1) / 2 := by
      unfold pyIdx; split_ifs <;> omega
    unfold axisH copPadH copCropH
    rw [if_neg hpos, if_pos hneg]
    refine ⟨rfl, rfl, ?_, rfl, ?_, rfl, ?_, ?_⟩
    · show pyIdx img.H (((s : Int) - img.H) / 2) -
        pyIdx img.H ((-((s : Int) - img.H)) / 2) = s
      rw [hstart, hstop]; omega
    · show pyIdx mask.H (((s : Int) - img.H) / 2) -
        pyIdx mask.H ((-((s : Int) - img.H)) / 2) = s
      rw [hm, hstart, hstop]; omega
    · intro t d h w
      show img.data t d (pyIdx img.H ((-((s : Int) - img.H)) / 2) + h) w = _
      rw [hstart]
      simp only [axSrc, if_pos hlt]
      rw [Nat.add_comm ((img.H - s) / 2) h]
    · intro h w
      show mask.data (pyIdx mask.H ((-((s : Int) - img.H)) / 2) + h) w = _
      rw [hm, hstart]
      simp only [axSrc, if_pos hlt]
      rw [Nat.add_comm ((img.H - s) / 2) h]
  · have h1 : ¬ ((s : Int) - img.H < 0) := by omega
    have h2 : ¬ ((s : Int) - img.H > 0) := by omega
    unfold axisH copPadH copCropH
    rw [if_neg h1, if_neg h2]
    have hs1 : ¬ (s < img.H) := by omega
    have hs2 : ¬ (img.H < s) := by omega
    refine ⟨rfl, rfl, ?_, rfl, ?_, rfl, ?_, ?_⟩
    · show img.H = s; omega
    · show mask.H = s; omega
    · intro t d h w; simp [axSrc, hs1, hs2]
    · intro h w; simp [axSrc, hs1, hs2]
  · have h1 : ¬ ((s : Int) - img.H < 0) := by omega
    have h2 : (s : Int) - img.H > 0 := by omega
    have hbef : ((((s : Int) - img.H)) / 2).toNat = (s - img.H) / 2 := by omega
    unfold axisH copPadH copCropH
    rw [if_neg h1, if_pos h2]
    have hs1 : ¬ (s < img.H) := by omega
    refine ⟨rfl, rfl, ?_, rfl, ?_, rfl, ?_, ?_⟩
    · show (((s : Int) - img.H) / 2).toNat + img.H + ((((s : Int) - img.H) + 1) / 2).toNat = s
      omega
    · show (((s : Int) - img.H) / 2).toNat + mask.H + ((((s : Int) - img.H) + 1) / 2).toNat = s
      omega
    · intro t d h w
      show (if (((s : Int) - img.H) / 2).toNat ≤ h ∧
            h < (((s : Int) - img.H) / 2).toNat + img.H then
            img.data t d (h - (((s : Int) - img.H) / 2).toNat) w else 0) = _
      rw [hbef]
      simp only [axSrc, if_neg hs1, if_pos hgt]
      by_cases hc : (s - img.H) / 2 ≤ h ∧ h < (s - img.H) / 2 + img.H
      · rw [if_pos hc, if_pos hc]
      · rw [if_neg hc, if_neg hc]
    · intro h w
      show (if (((s : Int) - img.H) / 2).toNat ≤ h ∧
            h < (((s : Int) - img.H) / 2).toNat + mask.H then
            mask.data (h - (((s : Int) - img.H) / 2).toNat) w else 0) = _
      rw [hm, hbef]
      simp only [axSrc, if_neg hs1, if_pos hgt]
      by_cases hc : (s - img.H) / 2 ≤ h ∧ h < (s - img.H) / 2 + img.H
      · rw [if_pos hc, if_pos hc]
      · rw [if_neg hc, if_neg hc]

theorem axisW_spec (p : Image4 × Image2) (s : Nat) (hw : p.2.W = p.1.W) :
    (axisW ((s : Int) - p.1.W) p).1.T = p.1.T ∧
    (axisW ((s : Int) - p.1.W) p).1.D = p.1.D ∧
    (axisW ((s : Int) - p.1.W) p).1.H = p.1.H ∧
    (axisW ((s : Int) - p.1.W) p).1.W = s ∧
    (axisW ((s : Int) - p.1.W) p).2.H = p.2.H ∧
    (axisW ((s : Int) - p.1.W) p).2.W = s ∧
    (∀ t d h w, (axisW ((s : Int) - p.1.W) p).1.data t d h w =
      match axSrc p.1.W s w with
      | some w0 => p.1.data t d h w0
      | none => 0) ∧
    (∀ h w, (axisW ((s : Int) - p.1.W) p).2.data h w =
      match axSrc p.1.W s w with
      | some w0 => p.2.data h w0
      | none => 0) := by
  rcases lt_trichotomy s p.1.W with hlt | heq | hgt
  · have hneg : (s : Int) - p.1.W < 0 := by omega
    have hpos : ¬ ((s : Int) - p.1.W > 0) := by omega
    have hstart : pyIdx p.1.W ((-((s : Int) - p.1.W)) / 2) = (p.1.W - s) / 2 := by
      unfold pyIdx; split_ifs <;> omega
    have hstop : pyIdx p.1.W (((s : Int) - p.1.W) / 2) = p.1.W - (p.1.W - s + 1) / 2 := by
      unfold pyIdx; split_ifs <;> omega
    unfold axisW copPadW copCropW
    rw [if_neg hpos, if_pos hneg]
    refine ⟨rfl, rfl, rfl, ?_, rfl, ?_, ?_, ?_⟩
    · show pyIdx p.1.W (((s : Int) - p.1.W) / 2) -
        pyIdx p.1.W ((-((s : Int) - p.1.W)) / 2) = s
      rw [hstart, hstop]; omega
    · show pyIdx p.2.W (((s : Int) - p.1.W) / 2) -
        pyIdx p.2.W ((-((s : Int) - p.1.W)) / 2) = s
      rw [hw, hstart, hstop]; omega
    · intro t d h w
      show p.1.data t d h (pyIdx p.1.W ((-((s : Int) - p.1.W)) / 2) + w) = _
      rw [hstart]
      simp only [axSrc, if_pos hlt]
      rw [Nat.add_comm ((p.1.W - s) / 2) w]
    · intro h w
      show p.2.data h (pyIdx p.2.W ((-((s : Int) - p.1.W)) / 2) + w) = _
      rw [hw, hstart]
      simp only [axSrc, if_pos hlt]
      rw [Nat.add_comm ((p.1.W - s) / 2) w]
  · have h1 : ¬ ((s : Int) - p.1.W < 0) := by omega
    have h2 : ¬ ((s : Int) - p.1.W > 0) := by omega
    unfold axisW copPadW copCropW
    rw [if_neg h1, if_neg h2]
    have hs1 : ¬ (s < p.1.W) := by omega
    have hs2 : ¬ (p.1.W < s) := by omega
    refine ⟨rfl, rfl, rfl, ?_, rfl, ?_, ?_, ?_⟩
    · show p.1.W = s; omega
    · show p.2.W = s; omega
    · intro t d h w; simp [axSrc, hs1, hs2]
    · intro h w; simp [axSrc, hs1, hs2]
  · have h1 : ¬ ((s : Int) - p.1.W < 0) := by omega
    have h2 : (s : Int) - p.1.W > 0 := by omega
    have hbef : ((((s : Int) - p.1.W)) / 2).toNat = (s - p.1.W) / 2 := by omega
    unfold axisW copPadW copCropW
    rw [if_neg h1, if_pos h2]
    have hs1 : ¬ (s < p.1.W) := by omega
    refine ⟨rfl, rfl, rfl, ?_, rfl, ?_, ?_, ?_⟩
    · show (((s : Int) - p.1.W) / 2).toNat + p.1.W + ((((s : Int) - p.1.W) + 1) / 2).toNat = s
      omega
    · show (((s : Int) - p.1.W) / 2).toNat + p.2.W + ((((s : Int) - p.1.W) + 1) / 2).toNat = s
      omega
    · intro t d h w
      show (if (((s : Int) - p.1.W) / 2).toNat ≤ w ∧
            w < (((s : Int) - p.1.W) / 2).toNat + p.1.W then
            p.1.data t d h (w - (((s : Int) - p.1.W) / 2).toNat) else 0) = _
      rw [hbef]
      simp only [axSrc, if_neg hs1, if_pos hgt]
      by_cases hc : (s - p.1.W) / 2 ≤ w ∧ w < (s - p.1.W) / 2 + p.1.W
      · rw [if_pos hc, if_pos hc]
      · rw [if_neg hc, if_neg hc]
    · intro h w
      show (if (((s : Int) - p.1.W) / 2).toNat ≤ w ∧
            w < (((s : Int) - p.1.W) / 2).toNat + p.2.W then
            p.2.data h (w - (((s : Int) - p.1.W) / 2).toNat) else 0) = _
      rw [hw, hbef]
      simp only [axSrc, if_neg hs1, if_pos hgt]
      by_cases hc : (s - p.1.W) / 2 ≤ w ∧ w < (s - p.1.W) / 2 + p.1.W
      · rw [if_pos hc, if_pos hc]
      · rw [if_neg hc, if_neg hc]

/-- Claim C1: for every image stack [T, D, H, W] and mask [H, W],
`crop_or_pad_to_size(image_stack, mask, image_size)` returns a [T, D, s, s] stack and
an [s, s] mask; on each spatial axis independently, a larger dimension is cropped with
the floor of the difference halved removed from the leading edge (so an odd difference
crops one more from the trailing edge), and a smaller dimension is padded with floor
half the difference zeros on the leading edge (so the extra zero goes to the trailing
edge); positions outside the copied region are zero-filled, which covers the
[10,4,16,16] → [10,4,32,32] zero-padded example. -/
theorem crop_or_pad_to_size_spec (img : Image4) (mask : Image2) (s : Nat)
    (hmH : mask.H = img.H) (hmW : mask.W = img.W) :
    (crop_or_pad_to_size img mask s).1.T = img.T ∧
    (crop_or_pad_to_size img mask s).1.D = img.D ∧
    (crop_or_pad_to_size img mask s).1.H = s ∧
    (crop_or_pad_to_size img mask s).1.W = s ∧
    (crop_or_pad_to_size img mask s).2.H = s ∧
    (crop_or_pad_to_size img mask s).2.W = s ∧
    (∀ t d h w, (crop_or_pad_to_size img mask s).1.data t d h w =
      match axSrc img.H s h, axSrc img.W s w with
      | some h0, some w0 => img.data t d h0 w0
      | _, _ => 0) ∧
    (∀ h w, (crop_or_pad_to_size img mask s).2.data h w =
      match axSrc img.H s h, axSrc img.W s w with
      | some h0, some w0 => mask.data h0 w0
      | _, _ => 0) := by
  rw [crop_or_pad_eq_axes img mask s]
  obtain ⟨hT, hD, hH, hW, mH, mW, hid, hmd⟩ := axisH_spec img mask s hmH
  set p := axisH ((s : Int) - img.H) (img, mask) with hp
  have hw2 : p.2.W = p.1.W := by rw [mW, hW, hmW]
  obtain ⟨wT, wD, wH, wW, nH, nW, wid, wmd⟩ := axisW_spec p s hw2
  rw [hW] at wT wD wH wW nH nW wid wmd
  refine ⟨?_, ?_, ?_, ?_, ?_, ?_, ?_, ?_⟩
  · rw [wT, hT]
  · rw [wD, hD]
  · rw [wH, hH]
  · exact wW
  · rw [nH, mH]
  · exact nW
  · intro t d h w
    rw [wid t d h w]
    cases hh : axSrc img.H s h <;> cases hww : axSrc img.W s w <;>
      simp only [hid, hh, hww]
  · intro h w
    rw [wmd h w]
    cases hh : axSrc img.H s h <;> cases hww : axSrc img.W s w <;>
      simp only [hmd, hh, hww]

/-- The spec's padding example: a [10, 4, 16, 16] stack of constant value 7. -/
def exImg16 : Image4 := ⟨10, 4, 16, 16, fun _ _ _ _ => 7⟩

/-- An all-ones 16 × 16 mask. -/
def exMask16 : Image2 := ⟨16, 16, fun _ _ => 1⟩

theorem crop_or_pad_to_size_spec_witness :
    exMask16.H = exImg16.H ∧ exMask16.W = exImg16.W ∧
    (crop_or_pad_to_size exImg16 exMask16 32).1.H = 32 ∧
    (crop_or_pad_to_size exImg16 exMask16 32).1.data 0 0 0 0 = 0 :=
  ⟨rfl, rfl, (crop_or_pad_to_size_spec exImg16 exMask16 32 rfl rfl).2.2.1, by decide⟩

/-- Claim C5: with the spatial encoder disabled, `transform` returns the [T, D] stack whose
(t, d) entry is the mean of `image_stack[t, d]` over the pixels with positive mask
(then scaled by 1e-4 and, when enabled, normalized), together with the constant `-1`
mask; the per-timestamp vector length is the channel count `D` whatever the mask's
spatial shape. -/
theorem transform_nonspatial_spec (tr : EOTransformer) (rot ch cw : Nat) (e1 e2 : Rat)
    (img : Image4) (mask : Image2) (hse : tr.spatial_encoder = false)
    (hmH : mask.H = img.H) (hmW : mask.W = img.W) (hnz : (maskedPixels mask).Nonempty) :
    ∀ v m, tr.transform rot ch cw e1 e2 img mask = TransResult.nonspatial v m →
      m = -1 ∧ v.T = img.T ∧ v.D = img.D ∧
      ∀ t d, v.data t d = post_scale tr.normalize e1 e2
        ((∑ p ∈ maskedPixels mask, img.data t d p.1 p.2) /
          ((maskedPixels mask).card : Rat)) := by
  intro v m heq
  unfold EOTransformer.transform at heq
  rw [hse] at heq
  simp only [maskedMeanStack] at heq
  obtain ⟨hv, hm⟩ := TransResult.nonspatial.inj heq
  subst hv; subst hm
  exact ⟨rfl, rfl, rfl, fun t d => rfl⟩

/-- A 2 × 3 × 1 × 1 stack whose value is the time index plus the channel index. -/
def exImgA : Image4 := ⟨2, 3, 1, 1, fun t d _ _ => (t : Rat) + d⟩

/-- A single positive mask pixel. -/
def exMaskA : Image2 := ⟨1, 1, fun _ _ => 1⟩

theorem transform_nonspatial_spec_witness :
    ((⟨false, true, 32⟩ : EOTransformer).spatial_encoder = false ∧
      exMaskA.H = exImgA.H ∧ exMaskA.W = exImgA.W ∧ (maskedPixels exMaskA).Nonempty) ∧
    (∀ v m, (⟨false, true, 32⟩ : EOTransformer).transform 0 0 0 0 0 exImgA exMaskA =
        TransResult.nonspatial v m →
      m = -1 ∧ v.T = exImgA.T ∧ v.D = exImgA.D ∧
      ∀ t d, v.data t d = post_scale (⟨false, true, 32⟩ : EOTransformer).normalize 0 0
        ((∑ p ∈ maskedPixels exMaskA, exImgA.data t d p.1 p.2) /
          ((maskedPixels exMaskA).card : Rat))) :=
  ⟨⟨rfl, rfl, rfl, by decide⟩,
    transform_nonspatial_spec ⟨false, true, 32⟩ 0 0 0 0 0 exImgA exMaskA rfl rfl rfl
      (by decide)⟩

/-- Claim C7: `random_crop` returns its inputs unchanged exactly when
`H - image_size // 2 <= image_size` or `W - image_size // 2 <= image_size`; otherwise,
for every center (h, w) the generator can draw (`image_size <= h < H - image_size//2`
and likewise for `w`), the window `[h - size//2, h + size//2) x [w - size//2,
w + size//2)` lies inside `[0, H) x [0, W)` and every access of the sliced result
reads the original stack at an in-bounds index. -/
theorem random_crop_spec (img : Image4) (mask : Image2) (s h w : Nat) :
    (random_crop img mask s h w = (img, mask) ↔
      ((img.H : Int) - (s : Int) / 2 ≤ (s : Int) ∨
        (img.W : Int) - (s : Int) / 2 ≤ (s : Int))) ∧
    (¬ ((img.H : Int) - (s : Int) / 2 ≤ (s : Int) ∨
        (img.W : Int) - (s : Int) / 2 ≤ (s : Int)) →
      (s : Int) ≤ h → (h : Int) < (img.H : Int) - (s : Int) / 2 →
      (s : Int) ≤ w → (w : Int) < (img.W : Int) - (s : Int) / 2 →
      0 ≤ (h : Int) - (s : Int) / 2 ∧ (h : Int) + (s : Int) / 2 ≤ (img.H : Int) ∧
      0 ≤ (w : Int) - (s : Int) / 2 ∧ (w : Int) + (s : Int) / 2 ≤ (img.W : Int) ∧
      (∀ i, i < (random_crop img mask s h w).1.H →
        ((h : Int) - (s : Int) / 2).toNat + i < img.H) ∧
      (∀ j, j < (random_crop img mask s h w).1.W →
        ((w : Int) - (s : Int) / 2).toNat + j < img.W) ∧
      (∀ t d i j, (random_crop img mask s h w).1.data t d i j =
        img.data t d (((h : Int) - (s : Int) / 2).toNat + i)
          (((w : Int) - (s : Int) / 2).toNat + j))) := by
  by_cases gH : (img.H : Int) - (s : Int) / 2 ≤ (s : Int)
  · have hr : random_crop img mask s h w = (img, mask) := by
      unfold random_crop; rw [if_pos gH]
    exact ⟨⟨fun _ => Or.inl gH, fun _ => hr⟩, fun hng => absurd (Or.inl gH) hng⟩
  · by_cases gW : (img.W : Int) - (s : Int) / 2 ≤ (s : Int)
    · have hr : random_crop img mask s h w = (img, mask) := by
        unfold random_crop; rw [if_neg gH, if_pos gW]
      exact ⟨⟨fun _ => Or.inr gW, fun _ => hr⟩, fun hng => absurd (Or.inr gW) hng⟩
    · have hr : random_crop img mask s h w =
        ((img.sliceH ((h : Int) - (s : Int) / 2) ((h : Int) + (s : Int) / 2)).sliceW
            ((w : Int) - (s : Int) / 2) ((w : Int) + (s : Int) / 2),
         (mask.sliceH ((h : Int) - (s : Int) / 2) ((h : Int) + (s : Int) / 2)).sliceW
            ((w : Int) - (s : Int) / 2) ((w : Int) + (s : Int) / 2)) := by
        unfold random_crop; rw [if_neg gH, if_neg gW]
      constructor
      · constructor
        · intro heq
          exfalso
          rw [hr] at heq
          have hH := congrArg (fun q => q.1.H) heq
          simp only [Image4.sliceW, Image4.sliceH] at hH
          unfold pyIdx at hH
          split_ifs at hH <;> omega
        · intro hg
          rcases hg with hg | hg
          · exact absurd hg gH
          · exact absurd hg gW
      · intro _ h1 h2 h3 h4
        have ha : pyIdx img.H ((h : Int) - (s : Int) / 2) =
            ((h : Int) - (s : Int) / 2).toNat := by
          unfold pyIdx; split_ifs <;> omega
        have hb : pyIdx img.H ((h : Int) + (s : Int) / 2) =
            ((h : Int) + (s : Int) / 2).toNat := by
          unfold pyIdx; split_ifs <;> omega
        have hc : pyIdx img.W ((w : Int) - (s : Int) / 2) =
            ((w : Int) - (s : Int) / 2).toNat := by
          unfold pyIdx; split_ifs <;> omega
        have hd : pyIdx img.W ((w : Int) + (s : Int) / 2) =
            ((w : Int) + (s : Int) / 2).toNat := by
          unfold pyIdx; split_ifs <;> omega
        refine ⟨by omega, by omega, by omega, by omega, ?_, ?_, ?_⟩
        · intro i hi
          rw [hr] at hi
          have hi2 : i < pyIdx img.H ((h : Int) + (s : Int) / 2) -
              pyIdx img.H ((h : Int) - (s : Int) / 2) := hi
          omega
        · intro j hj
          rw [hr] at hj
          have hj2 : j < pyIdx img.W ((w : Int) + (s : Int) / 2) -
              pyIdx img.W ((w : Int) - (s : Int) / 2) := hj
          omega
        · intro t d i j
          rw [hr]
          show img.data t d (pyIdx img.H ((h : Int) - (s : Int) / 2) + i)
              (pyIdx img.W ((w : Int) - (s : Int) / 2) + j) = _
          rw [ha, hc]

theorem random_crop_spec_witness :
    (¬ (((⟨1, 1, 50, 50, fun _ _ _ _ => 0⟩ : Image4).H : Int) - (8 : Int) / 2 ≤ (8 : Int) ∨
        ((⟨1, 1, 50, 50, fun _ _ _ _ => 0⟩ : Image4).W : Int) - (8 : Int) / 2 ≤ (8 : Int))) ∧
    (0 ≤ (20 : Int) - (8 : Int) / 2 ∧
      (20 : Int) + (8 : Int) / 2 ≤ (((⟨1, 1, 50, 50, fun _ _ _ _ => 0⟩ : Image4).H) : Int) ∧
      0 ≤ (21 : Int) - (8 : Int) / 2 ∧
      (21 : Int) + (8 : Int) / 2 ≤ (((⟨1, 1, 50, 50, fun _ _ _ _ => 0⟩ : Image4).W) : Int) ∧
      (∀ i, i < (random_crop ⟨1, 1, 50, 50, fun _ _ _ _ => 0⟩ ⟨50, 50, fun _ _ => 1⟩ 8 20 21).1.H →
        ((20 : Int) - (8 : Int) / 2).toNat + i < (⟨1, 1, 50, 50, fun _ _ _ _ => 0⟩ : Image4).H) ∧
      (∀ j, j < (random_crop ⟨1, 1, 50, 50, fun _ _ _ _ => 0⟩ ⟨50, 50, fun _ _ => 1⟩ 8 20 21).1.W →
        ((21 : Int) - (8 : Int) / 2).toNat + j < (⟨1, 1, 50, 50, fun _ _ _ _ => 0⟩ : Image4).W) ∧
      (∀ t d i j, (random_crop ⟨1, 1, 50, 50, fun _ _ _ _ => 0⟩ ⟨50, 50, fun _ _ => 1⟩ 8 20 21).1.data t d i j =
        (⟨1, 1, 50, 50, fun _ _ _ _ => 0⟩ : Image4).data t d
          (((20 : Int) - (8 : Int) / 2).toNat + i) (((21 : Int) - (8 : Int) / 2).toNat + j))) :=
  ⟨by decide,
    (random_crop_spec ⟨1, 1, 50, 50, fun _ _ _ _ => 0⟩ ⟨50, 50, fun _ _ => 1⟩ 8 20 21).2
      (by decide) (by decide) (by decide) (by decide) (by decide)⟩

/-- A 1 × 2 × 1 × 1 stack whose two channels both carry the raw value 3. -/
def exImgB3 : Image4 := ⟨1, 2, 1, 1, fun _ _ _ _ => 3⟩

/-- A 1 × 2 × 1 × 1 stack whose two channels both carry the raw value 5. -/
def exImgB5 : Image4 := ⟨1, 2, 1, 1, fun _ _ _ _ => 5⟩

/-- A single positive mask pixel for the normalization counterexample. -/
def exMaskB : Image2 := ⟨1, 1, fun _ _ => 1⟩

/-- Claim C8 counterexample: the z-normalization constants are one scalar mean and one
scalar deviation shared by all channels, not per-channel values.  Two channels that
carry equal raw values are normalized to equal outputs, and this holds at two
different raw values, which is impossible for channel-distinct affine constants. -/
theorem normalize_per_channel_counterexample :
    transImage ((⟨true, true, 1⟩ : EOTransformer).transform 0 0 0 0 0 exImgB3 exMaskB)
        0 0 0 0 =
      transImage ((⟨true, true, 1⟩ : EOTransformer).transform 0 0 0 0 0 exImgB3 exMaskB)
        0 1 0 0 ∧
    transImage ((⟨true, true, 1⟩ : EOTransformer).transform 0 0 0 0 0 exImgB5 exMaskB)
        0 0 0 0 =
      transImage ((⟨true, true, 1⟩ : EOTransformer).transform 0 0 0 0 0 exImgB5 exMaskB)
        0 1 0 0 ∧
    (3 : Rat) ≠ 5 := by
  refine ⟨?_, ?_, by norm_num⟩
  · show post_scale true 0 0 ((spatial_pipeline 1 0 0 0 exImgB3 exMaskB).1.data 0 0 0 0) =
      post_scale true 0 0 ((spatial_pipeline 1 0 0 0 exImgB3 exMaskB).1.data 0 1 0 0)
    have h0 : (spatial_pipeline 1 0 0 0 exImgB3 exMaskB).1.data 0 0 0 0 = 3 := by decide
    have h1 : (spatial_pipeline 1 0 0 0 exImgB3 exMaskB).1.data 0 1 0 0 = 3 := by decide
    rw [h0, h1]
  · show post_scale true 0 0 ((spatial_pipeline 1 0 0 0 exImgB5 exMaskB).1.data 0 0 0 0) =
      post_scale true 0 0 ((spatial_pipeline 1 0 0 0 exImgB5 exMaskB).1.data 0 1 0 0)
    have h0 : (spatial_pipeline 1 0 0 0 exImgB5 exMaskB).1.data 0 0 0 0 = 5 := by decide
    have h1 : (spatial_pipeline 1 0 0 0 exImgB5 exMaskB).1.data 0 1 0 0 = 5 := by decide
    rw [h0, h1]

/-- Claim C8 amended: when normalization is enabled, every entry of the transformed image —
whatever its channel — is the 1e-4-scaled pipeline value minus the single scalar
`0.1014 + e1`, divided by the single scalar `0.1171 + e2`, where `e1` and `e2` are the
two jitters drawn once per sample. -/
theorem normalize_shared_constants (tr : EOTransformer) (rot ch cw : Nat) (e1 e2 : Rat)
    (img : Image4) (mask : Image2) (hn : tr.normalize = true) :
    ∀ t d h w,
      transImage (tr.transform rot ch cw e1 e2 img mask) t d h w =
        (transImage ((⟨tr.spatial_encoder, false, tr.image_size⟩ : EOTransformer).transform
            rot ch cw e1 e2 img mask) t d h w - (1014 / 10000 + e1)) / (1171 / 10000 + e2) := by
  obtain ⟨se, nrm, isz⟩ := tr
  cases hn
  cases se <;> intro t d h w <;> rfl

theorem normalize_shared_constants_witness :
    (⟨false, true, 32⟩ : EOTransformer).normalize = true ∧
    (∀ t d h w,
      transImage ((⟨false, true, 32⟩ : EOTransformer).transform 0 0 0 0 0 exImgA exMaskA)
          t d h w =
        (transImage ((⟨(⟨false, true, 32⟩ : EOTransformer).spatial_encoder, false,
            (⟨false, true, 32⟩ : EOTransformer).image_size⟩ : EOTransformer).transform
            0 0 0 0 0 exImgA exMaskA) t d h w - (1014 / 10000 + 0)) / (1171 / 10000 + 0)) :=
  ⟨rfl, normalize_shared_constants ⟨false, true, 32⟩ 0 0 0 0 0 exImgA exMaskA rfl⟩

theorem pyIdx_le (n : Nat) (i : Int) : pyIdx n i ≤ n := by
  unfold pyIdx; split_ifs <;> omega

/-- Spatial alignment of an image/mask pair with the original pair: the mask has the
image's spatial dimensions, and every in-range position either shows one original
pixel — the same one in the mask and in every channel of the image — or is a
zero-padded position in both. -/
def Aligned (cur : Image4 × Image2) (img0 : Image4) (mask0 : Image2) : Prop :=
  cur.2.H = cur.1.H ∧ cur.2.W = cur.1.W ∧
  ∀ h w, h < cur.1.H → w < cur.1.W →
    (∃ h0 w0, h0 < img0.H ∧ w0 < img0.W ∧
      cur.2.data h w = mask0.data h0 w0 ∧
      ∀ t d, cur.1.data t d h w = img0.data t d h0 w0) ∨
    (cur.2.data h w = 0 ∧ ∀ t d, cur.1.data t d h w = 0)

theorem aligned_refl (img : Image4) (mask : Image2)
    (hmH : mask.H = img.H) (hmW : mask.W = img.W) : Aligned (img, mask) img mask := by
  refine ⟨hmH, hmW, fun h w hh hw => Or.inl ⟨h, w, hh, hw, rfl, fun _ _ => rfl⟩⟩

theorem aligned_random_crop (p : Image4 × Image2) (img0 : Image4) (mask0 : Image2)
    (s h w : Nat) (hal : Aligned p img0 mask0) :
    Aligned (random_crop p.1 p.2 s h w) img0 mask0 := by
  obtain ⟨dH, dW, prop⟩ := hal
  unfold random_crop
  split_ifs with g1 g2
  · exact ⟨dH, dW, prop⟩
  · exact ⟨dH, dW, prop⟩
  · refine ⟨?_, ?_, ?_⟩
    · show pyIdx p.2.H _ - pyIdx p.2.H _ = pyIdx p.1.H _ - pyIdx p.1.H _
      rw [dH]
    · show pyIdx p.2.W _ - pyIdx p.2.W _ = pyIdx p.1.W _ - pyIdx p.1.W _
      rw [dW]
    · intro i j hi hj
      have hiH : i < pyIdx p.1.H ((h : Int) + (s : Int) / 2) -
          pyIdx p.1.H ((h : Int) - (s : Int) / 2) := hi
      have hjW : j < pyIdx p.1.W ((w : Int) + (s : Int) / 2) -
          pyIdx p.1.W ((w : Int) - (s : Int) / 2) := hj
      have hbH := pyIdx_le p.1.H ((h : Int) + (s : Int) / 2)
      have hbW := pyIdx_le p.1.W ((w : Int) + (s : Int) / 2)
      have hsrc := prop (pyIdx p.1.H ((h : Int) - (s : Int) / 2) + i)
        (pyIdx p.1.W ((w : Int) - (s : Int) / 2) + j) (by omega) (by omega)
      rcases hsrc with ⟨h0, w0, hb1, hb2, hmv, hiv⟩ | ⟨hmv, hiv⟩
      · refine Or.inl ⟨h0, w0, hb1, hb2, ?_, fun t d => hiv t d⟩
        show p.2.data (pyIdx p.2.H ((h : Int) - (s : Int) / 2) + i)
            (pyIdx p.2.W ((w : Int) - (s : Int) / 2) + j) = _
        rw [dH, dW]
        exact hmv
      · refine Or.inr ⟨?_, fun t d => hiv t d⟩
        show p.2.data (pyIdx p.2.H ((h : Int) - (s : Int) / 2) + i)
            (pyIdx p.2.W ((w : Int) - (s : Int) / 2) + j) = 0
        rw [dH, dW]
        exact hmv

theorem axSrc_lt (n s i j : Nat) (hj : axSrc n s i = some j) (hi : i < s) : j < n := by
  unfold axSrc at hj
  split_ifs at hj with c1 c2 c3 <;> (injection hj with hj2; omega)

theorem aligned_crop_or_pad (p : Image4 × Image2) (img0 : Image4) (mask0 : Image2)
    (s : Nat) (hal : Aligned p img0 mask0) :
    Aligned (crop_or_pad_to_size p.1 p.2 s) img0 mask0 := by
  obtain ⟨dH, dW, prop⟩ := hal
  obtain ⟨hT, hD, hH, hW, mH, mW, hid, hmd⟩ := crop_or_pad_to_size_spec p.1 p.2 s dH dW
  refine ⟨by rw [mH, hH], by rw [mW, hW], ?_⟩
  intro h w hh hw
  rw [hH] at hh
  rw [hW] at hw
  rw [hmd h w]
  cases hhs : axSrc p.1.H s h with
  | none =>
    refine Or.inr ⟨rfl, fun t d => ?_⟩
    rw [hid t d h w, hhs]
  | some h1 =>
    cases hws : axSrc p.1.W s w with
    | none =>
      refine Or.inr ⟨rfl, fun t d => ?_⟩
      rw [hid t d h w, hhs, hws]
    | some w1 =>
      have hb1 : h1 < p.1.H := axSrc_lt p.1.H s h h1 hhs hh
      have hb2 : w1 < p.1.W := axSrc_lt p.1.W s w w1 hws hw
      rcases prop h1 w1 hb1 hb2 with ⟨h0, w0, hc1, hc2, hmv, hiv⟩ | ⟨hmv, hiv⟩
      · refine Or.inl ⟨h0, w0, hc1, hc2, hmv, fun t d => ?_⟩
        rw [hid t d h w, hhs, hws]
        exact hiv t d
      · refine Or.inr ⟨hmv, fun t d => ?_⟩
        rw [hid t d h w, hhs, hws]
        exact hiv t d

theorem aligned_rotOnce (p : Image4 × Image2) (img0 : Image4) (mask0 : Image2)
    (hal : Aligned p img0 mask0) : Aligned (rotOnce4 p.1, rotOnce2 p.2) img0 mask0 := by
  obtain ⟨dH, dW, prop⟩ := hal
  refine ⟨by show p.2.W = p.1.W; exact dW, by show p.2.H = p.1.H; exact dH, ?_⟩
  intro i j hi hj
  have hi' : i < p.1.W := hi
  have hj' : j < p.1.H := hj
  have hsrc := prop j (p.1.W - 1 - i) hj' (by omega)
  rcases hsrc with ⟨h0, w0, hb1, hb2, hmv, hiv⟩ | ⟨hmv, hiv⟩
  · refine Or.inl ⟨h0, w0, hb1, hb2, ?_, fun t d => hiv t d⟩
    show p.2.data j (p.2.W - 1 - i) = _
    rw [dW]
    exact hmv
  · refine Or.inr ⟨?_, fun t d => hiv t d⟩
    show p.2.data j (p.2.W - 1 - i) = 0
    rw [dW]
    exact hmv

theorem aligned_rot90 (p : Image4 × Image2) (img0 : Image4) (mask0 : Image2) (k : Nat)
    (hal : Aligned p img0 mask0) :
    Aligned (rot90_4 p.1 k, rot90_2 p.2 k) img0 mask0 := by
  induction k with
  | zero => exact hal
  | succ n ih => exact aligned_rotOnce (rot90_4 p.1 n, rot90_2 p.2 n) img0 mask0 ih

/-- Claim C6: in the spatial branch, for every random choice (crop center, rotation count),
the returned mask has the returned image's spatial dimensions and stays spatially
aligned with it: every in-range position either shows one original pixel — the same
one in the mask and in every channel of the image (the image value further mapped by
the scalar scale/normalize step) — or is a zero-padded position in both. -/
theorem transform_spatial_aligned (tr : EOTransformer) (rot ch cw : Nat) (e1 e2 : Rat)
    (img : Image4) (mask : Image2) (hse : tr.spatial_encoder = true)
    (hmH : mask.H = img.H) (hmW : mask.W = img.W) :
    ∀ i2 m2, tr.transform rot ch cw e1 e2 img mask = TransResult.spatial i2 m2 →
      m2.H = i2.H ∧ m2.W = i2.W ∧
      ∀ h w, h < i2.H → w < i2.W →
        (∃ h0 w0, h0 < img.H ∧ w0 < img.W ∧
          m2.data h w = mask.data h0 w0 ∧
          ∀ t d, i2.data t d h w = post_scale tr.normalize e1 e2 (img.data t d h0 w0)) ∨
        (m2.data h w = 0 ∧ ∀ t d, i2.data t d h w = post_scale tr.normalize e1 e2 0) := by
  obtain ⟨se, nrm, isz⟩ := tr
  have hse' : se = true := hse
  subst hse'
  intro i2 m2 heq
  obtain ⟨hi, hm⟩ := TransResult.spatial.inj heq
  subst hi
  subst hm
  have hal1 : Aligned (if isz ≤ img.H ∧ isz ≤ img.W then random_crop img mask isz ch cw
      else (img, mask)) img mask := by
    split_ifs with hc
    · exact aligned_random_crop (img, mask) img mask isz ch cw (aligned_refl img mask hmH hmW)
    · exact aligned_refl img mask hmH hmW
  have hal2 := aligned_crop_or_pad _ img mask isz hal1
  have hal3 := aligned_rot90 _ img mask rot hal2
  have hal4 : Aligned (spatial_pipeline isz rot ch cw img mask) img mask := hal3
  obtain ⟨dH, dW, prop⟩ := hal4
  refine ⟨dH, dW, ?_⟩
  intro h w hh hw
  rcases prop h w hh hw with ⟨h0, w0, hb1, hb2, hmv, hiv⟩ | ⟨hmv, hiv⟩
  · exact Or.inl ⟨h0, w0, hb1, hb2, hmv, fun t d => by
      show post_scale nrm e1 e2 _ = _
      rw [hiv t d]⟩
  · exact Or.inr ⟨hmv, fun t d => by
      show post_scale nrm e1 e2 _ = _
      rw [hiv t d]⟩

theorem transform_spatial_aligned_witness :
    ((⟨true, true, 4⟩ : EOTransformer).spatial_encoder = true ∧
      exMask16.H = exImg16.H ∧ exMask16.W = exImg16.W) ∧
    (∀ i2 m2, (⟨true, true, 4⟩ : EOTransformer).transform 1 5 6 0 0 exImg16 exMask16 =
        TransResult.spatial i2 m2 →
      m2.H = i2.H ∧ m2.W = i2.W ∧
      ∀ h w, h < i2.H → w < i2.W →
        (∃ h0 w0, h0 < exImg16.H ∧ w0 < exImg16.W ∧
          m2.data h w = exMask16.data h0 w0 ∧
          ∀ t d, i2.data t d h w = post_scale (⟨true, true, 4⟩ : EOTransformer).normalize 0 0
            (exImg16.data t d h0 w0)) ∨
        (m2.data h w = 0 ∧ ∀ t d, i2.data t d h w =
          post_scale (⟨true, true, 4⟩ : EOTransformer).normalize 0 0 0)) :=
  ⟨⟨rfl, rfl, rfl⟩,
    transform_spatial_aligned ⟨true, true, 4⟩ 1 5 6 0 0 exImg16 exMask16 rfl rfl rfl⟩

/-!  The per-fold training loop of `training_cross_val.main` (lines 97-216), with the
per-epoch validation losses given as a list.  A checkpoint file is recorded as a
`CkptEvent`; the model/optimizer states it contains are identified by the epoch at
which they were captured. -/

/-- The CLI arguments that govern early stopping and periodic checkpointing. -/
structure TrainArgs where
  patience : Nat
  checkpoint_epoch : Nat

/-- One persisted checkpoint: `epoch_{e}_model.pt` holds the model and optimizer
state as of epoch `e`; `best_model_fold_{k}.pt` holds the states deep-copied at the
fold's best epoch. -/
inductive CkptEvent where
  | periodic (epoch : Nat)
  | bestFinal (best_epoch : Nat)
deriving DecidableEq

/-- The per-fold mutable state: best loss so far (`np.inf` start is `none`), its
epoch, the patience counter, plus bookkeeping of the epochs executed, whether the
loop broke early, and the checkpoints persisted so far. -/
structure FoldState where
  best_loss : Option Rat
  best_epoch : Nat
  patience_count : Nat
  epochs_run : Nat
  stopped : Bool
  ckpts : List CkptEvent

/-- Lines 97-100: `best_loss = np.inf`, `best_epoch = 0`, `patience_count = 0`. -/
def initFoldState : FoldState := ⟨none, 0, 0, 0, false, []⟩

/-- `valid_loss < best_loss`, with `best_loss` starting at `np.inf`. -/
def improves : Option Rat → Rat → Prop
  | none, _ => True
  | some b, l => l < b

instance improvesDec (b : Option Rat) (l : Rat) : Decidable (improves b l) :=
  match b with
  | none => isTrue trivial
  | some b0 => inferInstanceAs (Decidable (l < b0))

/-- Lines 176-185: `if valid_loss < best_loss:` take a deep-copied snapshot and reset
the patience counter, `else:` increment it. -/
def stepBest (st : FoldState) (epoch : Nat) (loss : Rat) : FoldState :=
  if improves st.best_loss loss then
    ⟨some loss, epoch, 0, st.epochs_run, st.stopped, st.ckpts⟩
  else
    ⟨st.best_loss, st.best_epoch, st.patience_count + 1, st.epochs_run, st.stopped, st.ckpts⟩

/-- Lines 187-195: break when the counter reaches `args.patience` (which skips that
epoch's periodic save), otherwise save `epoch_{e}_model.pt` when
`epoch % checkpoint_epoch == 0 and epoch != 0`. -/
def stepStop (args : TrainArgs) (epoch : Nat) (st1 : FoldState) : FoldState :=
  if st1.patience_count = args.patience then
    ⟨st1.best_loss, st1.best_epoch, st1.patience_count, st1.epochs_run + 1, true, st1.ckpts⟩
  else if epoch % args.checkpoint_epoch = 0 ∧ epoch ≠ 0 then
    ⟨st1.best_loss, st1.best_epoch, st1.patience_count, st1.epochs_run + 1, st1.stopped,
      st1.ckpts ++ [CkptEvent.periodic epoch]⟩
  else
    ⟨st1.best_loss, st1.best_epoch, st1.patience_count, st1.epochs_run + 1, st1.stopped,
      st1.ckpts⟩

/-- One epoch of the loop body after validation (lines 176-195). -/
def epochStep (args : TrainArgs) (st : FoldState) (epoch : Nat) (loss : Rat) : FoldState :=
  stepStop args epoch (stepBest st epoch loss)

/-- The epoch loop `for epoch in range(args.max_epochs)` with its `break`, consuming
the fold's validation losses in order. -/
def runEpochs (args : TrainArgs) : FoldState → Nat → List Rat → FoldState
  | st, _, [] => st
  | st, epoch, loss :: rest =>
    let st2 := epochStep args st epoch loss
    if st2.stopped then st2 else runEpochs args st2 (epoch + 1) rest

/-- One fold: run the epoch loop from the fresh state, then persist the best model
and optimizer snapshot (`best_model_fold_{fold}.pt`, lines 202-203). -/
def runFold (args : TrainArgs) (losses : List Rat) : FoldState :=
  let st := runEpochs args initFoldState 0 losses
  ⟨st.best_loss, st.best_epoch, st.patience_count, st.epochs_run, st.stopped,
    st.ckpts ++ [CkptEvent.bestFinal st.best_epoch]⟩

/-- Epoch `j` improves when its validation loss is strictly below every earlier one. -/
def improvingAt (l : List Rat) (j : Nat) : Prop :=
  ∀ i, i < j → l.getD j 0 < l.getD i 0

instance improvingAtDec (l : List Rat) (j : Nat) : Decidable (improvingAt l j) := by
  unfold improvingAt; infer_instance

/-- The patience counter after `k` processed epochs: reset to 0 by an improving
epoch, incremented by a non-improving one. -/
def cntAfter (l : List Rat) : Nat → Nat
  | 0 => 0
  | k + 1 => if improvingAt l k then 0 else cntAfter l k + 1

/-- The first epoch at which the patience counter reaches the threshold `p`. -/
def stopEpoch (p : Nat) (l : List Rat) : Option Nat :=
  (List.range l.length).find? (fun e => cntAfter l (e + 1) == p)

/-- Same, restricted to epochs `k` and later. -/
def stopEpochFrom (p : Nat) (l : List Rat) (k : Nat) : Option Nat :=
  (List.range' k (l.length - k)).find? (fun e => cntAfter l (e + 1) == p)

/-- The number of epochs the fold actually executes. -/
def epochsRunSpec (p : Nat) (l : List Rat) : Nat :=
  match stopEpoch p l with
  | some e => e + 1
  | none => l.length

/-- The best epoch among the first `k`: the last improving one (0 for `k = 0`). -/
def lastImp (l : List Rat) : Nat → Nat
  | 0 => 0
  | k + 1 => if improvingAt l k then k else lastImp l k

/-- The running minimum of the first `k` losses (`none` encodes `np.inf`). -/
def runMin (l : List Rat) : Nat → Option Rat
  | 0 => none
  | k + 1 =>
    match runMin l k with
    | none => some (l.getD k 0)
    | some b => some (min b (l.getD k 0))

theorem cntAfter_succ (l : List Rat) (k : Nat) :
    cntAfter l (k + 1) = if improvingAt l k then 0 else cntAfter l k + 1 := rfl

theorem lastImp_succ (l : List Rat) (k : Nat) :
    lastImp l (k + 1) = if improvingAt l k then k else lastImp l k := rfl

theorem runMin_succ (l : List Rat) (k : Nat) :
    runMin l (k + 1) =
      match runMin l k with
      | none => some (l.getD k 0)
      | some b => some (min b (l.getD k 0)) := rfl

theorem improves_runMin (l : List Rat) (k : Nat) (x : Rat) :
    improves (runMin l k) x ↔ ∀ i, i < k → x < l.getD i 0 := by
  induction k with
  | zero => simp [runMin, improves]
  | succ n ih =>
    cases hr : runMin l n with
    | none =>
      have hn : n = 0 := by
        cases n with
        | zero => rfl
        | succ m =>
          exfalso
          rw [runMin_succ] at hr
          revert hr
          cases runMin l m <;> simp
      subst hn
      rw [runMin_succ, hr]
      show x < l.getD 0 0 ↔ _
      constructor
      · intro h i hi
        rw [Nat.lt_one_iff] at hi
        rw [hi]
        exact h
      · intro h
        exact h 0 Nat.one_pos
    | some b =>
      rw [runMin_succ, hr]
      rw [hr] at ih
      constructor
      · intro h
        have hx : x < min b (l.getD n 0) := h
        rw [Nat.forall_lt_succ]
        exact ⟨ih.mp (lt_min_iff.mp hx).1, (lt_min_iff.mp hx).2⟩
      · intro h
        rw [Nat.forall_lt_succ] at h
        show x < min b (l.getD n 0)
        exact lt_min_iff.mpr ⟨ih.mpr h.1, h.2⟩

theorem runMin_succ_of_improving (l : List Rat) (k : Nat) (h : improvingAt l k) :
    runMin l (k + 1) = some (l.getD k 0) := by
  rw [runMin_succ]
  cases hr : runMin l k with
  | none => rfl
  | some b =>
    have hlt : l.getD k 0 < b := by
      have h2 := (improves_runMin l k (l.getD k 0)).mpr h
      rw [hr] at h2
      exact h2
    show some (min b (l.getD k 0)) = some (l.getD k 0)
    rw [min_eq_right hlt.le]

theorem runMin_succ_of_not_improving (l : List Rat) (k : Nat) (h : ¬ improvingAt l k) :
    runMin l (k + 1) = runMin l k := by
  cases hr : runMin l k with
  | none =>
    exfalso
    exact h ((improves_runMin l k (l.getD k 0)).mp (by rw [hr]; trivial))
  | some b =>
    have hnlt : ¬ (l.getD k 0 < b) := by
      intro hlt
      exact h ((improves_runMin l k (l.getD k 0)).mp (by rw [hr]; exact hlt))
    rw [runMin_succ, hr]
    show some (min b (l.getD k 0)) = some b
    rw [min_eq_left (not_lt.mp hnlt)]

theorem cntAfter_le (l : List Rat) (k : Nat) : cntAfter l k ≤ k := by
  induction k with
  | zero => exact le_rfl
  | succ n ih =>
    rw [cntAfter_succ]
    split_ifs <;> omega

theorem cntAfter_window (l : List Rat) (k : Nat) :
    ∀ j, k - cntAfter l k ≤ j → j < k → ¬ improvingAt l j := by
  induction k with
  | zero => intro j _ h2; omega
  | succ n ih =>
    intro j h1 h2
    by_cases hi : improvingAt l n
    · rw [cntAfter_succ, if_pos hi] at h1
      omega
    · rw [cntAfter_succ, if_neg hi] at h1
      rcases Nat.lt_succ_iff_lt_or_eq.mp h2 with h2' | rfl
      · exact ih j (by omega) h2'
      · exact hi

theorem stopEpochFrom_step (p : Nat) (l : List Rat) (k : Nat) (hk : k < l.length) :
    stopEpochFrom p l k =
      if cntAfter l (k + 1) = p then some k else stopEpochFrom p l (k + 1) := by
  unfold stopEpochFrom
  rw [show l.length - k = (l.length - (k + 1)) + 1 from by omega, List.range'_succ]
  by_cases hc : cntAfter l (k + 1) = p
  · rw [if_pos hc]
    exact List.find?_cons_of_pos _ (by simpa using hc)
  · rw [if_neg hc]
    exact List.find?_cons_of_neg _ (by simpa using hc)

theorem stopEpochFrom_some_bounds (p : Nat) (l : List Rat) (k e : Nat)
    (h : stopEpochFrom p l k = some e) :
    k ≤ e ∧ e < l.length ∧ cntAfter l (e + 1) = p := by
  have hm := List.mem_of_find?_eq_some h
  have hp := List.find?_some h
  rw [List.mem_range'_1] at hm
  exact ⟨hm.1, by omega, by simpa using hp⟩

theorem stepStop_char (args : TrainArgs) (epoch : Nat) (st1 : FoldState)
    (hst : st1.stopped = false) :
    stepStop args epoch st1 =
      ⟨st1.best_loss, st1.best_epoch, st1.patience_count, st1.epochs_run + 1,
        decide (st1.patience_count = args.patience),
        st1.ckpts ++ (if st1.patience_count ≠ args.patience ∧
            epoch % args.checkpoint_epoch = 0 ∧ epoch ≠ 0
          then [CkptEvent.periodic epoch] else [])⟩ := by
  unfold stepStop
  by_cases h1 : st1.patience_count = args.patience
  · rw [if_pos h1, if_neg (show ¬ (st1.patience_count ≠ args.patience ∧
        epoch % args.checkpoint_epoch = 0 ∧ epoch ≠ 0) from fun hc => hc.1 h1)]
    simp [h1]
  · rw [if_neg h1]
    by_cases h2 : epoch % args.checkpoint_epoch = 0 ∧ epoch ≠ 0
    · rw [if_pos h2, if_pos (show st1.patience_count ≠ args.patience ∧
          epoch % args.checkpoint_epoch = 0 ∧ epoch ≠ 0 from ⟨h1, h2.1, h2.2⟩)]
      simp [h1, hst]
    · rw [if_neg h2, if_neg (show ¬ (st1.patience_count ≠ args.patience ∧
          epoch % args.checkpoint_epoch = 0 ∧ epoch ≠ 0) from
          fun hc => h2 ⟨hc.2.1, hc.2.2⟩)]
      simp [h1, hst]

theorem epochStep_char (args : TrainArgs) (l : List Rat) (k : Nat) (st : FoldState)
    (hst : st.stopped = false) (hbl : st.best_loss = runMin l k)
    (hpc : st.patience_count = cntAfter l k) (hbe : st.best_epoch = lastImp l k) :
    epochStep args st k (l.getD k 0) =
      ⟨runMin l (k + 1), lastImp l (k + 1), cntAfter l (k + 1), st.epochs_run + 1,
        decide (cntAfter l (k + 1) = args.patience),
        st.ckpts ++ (if cntAfter l (k + 1) ≠ args.patience ∧
            k % args.checkpoint_epoch = 0 ∧ k ≠ 0
          then [CkptEvent.periodic k] else [])⟩ := by
  unfold epochStep
  by_cases himp : improvingAt l k
  · have h1 : improves st.best_loss (l.getD k 0) := by
      rw [hbl]; exact (improves_runMin l k (l.getD k 0)).mpr himp
    have hb : stepBest st k (l.getD k 0) =
        ⟨some (l.getD k 0), k, 0, st.epochs_run, st.stopped, st.ckpts⟩ := by
      unfold stepBest; rw [if_pos h1]
    rw [hb, stepStop_char args k
      ⟨some (l.getD k 0), k, 0, st.epochs_run, st.stopped, st.ckpts⟩ hst]
    rw [show cntAfter l (k + 1) = 0 from by rw [cntAfter_succ, if_pos himp],
      show lastImp l (k + 1) = k from by rw [lastImp_succ, if_pos himp],
      runMin_succ_of_improving l k himp]
  · have h1 : ¬ improves st.best_loss (l.getD k 0) := by
      rw [hbl]
      intro hcon
      exact himp ((improves_runMin l k (l.getD k 0)).mp hcon)
    have hb : stepBest st k (l.getD k 0) =
        ⟨st.best_loss, st.best_epoch, st.patience_count + 1, st.epochs_run, st.stopped,
          st.ckpts⟩ := by
      unfold stepBest; rw [if_neg h1]
    rw [hb, stepStop_char args k
      ⟨st.best_loss, st.best_epoch, st.patience_count + 1, st.epochs_run, st.stopped,
        st.ckpts⟩ hst]
    rw [show cntAfter l (k + 1) = cntAfter l k + 1 from by
        rw [cntAfter_succ, if_neg himp],
      show lastImp l (k + 1) = lastImp l k from by rw [lastImp_succ, if_neg himp],
      runMin_succ_of_not_improving l k himp, hbl, hpc, hbe]

theorem runEpochs_cons_stopped (args : TrainArgs) (st : FoldState) (k : Nat) (loss : Rat)
    (rest : List Rat) (h : (epochStep args st k loss).stopped = true) :
    runEpochs args st k (loss :: rest) = epochStep args st k loss := by
  show (if (epochStep args st k loss).stopped then epochStep args st k loss
        else runEpochs args (epochStep args st k loss) (k + 1) rest) = _
  rw [if_pos h]

theorem runEpochs_cons_go (args : TrainArgs) (st : FoldState) (k : Nat) (loss : Rat)
    (rest : List Rat) (h : (epochStep args st k loss).stopped = false) :
    runEpochs args st k (loss :: rest) =
      runEpochs args (epochStep args st k loss) (k + 1) rest := by
  show (if (epochStep args st k loss).stopped then epochStep args st k loss
        else runEpochs args (epochStep args st k loss) (k + 1) rest) = _
  rw [if_neg (by simp [h])]

theorem runEpochs_char (args : TrainArgs) (l : List Rat) :
    ∀ n k st, l.length - k = n → k ≤ l.length → st.stopped = false →
      st.epochs_run = k → st.best_loss = runMin l k → st.patience_count = cntAfter l k →
      st.best_epoch = lastImp l k →
      ((∀ e, stopEpochFrom args.patience l k = some e →
        (runEpochs args st k (l.drop k)).stopped = true ∧
        (runEpochs args st k (l.drop k)).epochs_run = e + 1 ∧
        (runEpochs args st k (l.drop k)).best_epoch = lastImp l (e + 1) ∧
        (runEpochs args st k (l.drop k)).ckpts = st.ckpts ++
          ((List.range' k (e + 1 - k)).filter (fun x =>
            decide (x % args.checkpoint_epoch = 0 ∧ x ≠ 0 ∧ x ≠ e))).map CkptEvent.periodic) ∧
      (stopEpochFrom args.patience l k = none →
        (runEpochs args st k (l.drop k)).stopped = false ∧
        (runEpochs args st k (l.drop k)).epochs_run = l.length ∧
        (runEpochs args st k (l.drop k)).best_epoch = lastImp l l.length ∧
        (runEpochs args st k (l.drop k)).ckpts = st.ckpts ++
          ((List.range' k (l.length - k)).filter (fun x =>
            decide (x % args.checkpoint_epoch = 0 ∧ x ≠ 0))).map CkptEvent.periodic)) := by
  intro n
  induction n with
  | zero =>
    intro k st h1 h2 hst hr hb hc hbe
    have hk : k = l.length := by omega
    subst hk
    rw [List.drop_length]
    have hse : stopEpochFrom args.patience l l.length = none := by
      unfold stopEpochFrom
      rw [Nat.sub_self]
      rfl
    constructor
    · intro e he
      rw [hse] at he
      exact Option.noConfusion he
    · intro _
      refine ⟨hst, hr, hbe, ?_⟩
      rw [Nat.sub_self]
      show st.ckpts = st.ckpts ++
        (List.filter _ (List.range' l.length 0)).map CkptEvent.periodic
      simp
  | succ n ih =>
    intro k st h1 h2 hst hr hb hc hbe
    have hk : k < l.length := by omega
    have hdrop : l.drop k = l.getD k 0 :: l.drop (k + 1) := by
      rw [List.drop_eq_getElem_cons hk, List.getD_eq_getElem l 0 hk]
    rw [hdrop]
    by_cases hsp : cntAfter l (k + 1) = args.patience
    · have hstop2 : (epochStep args st k (l.getD k 0)).stopped = true := by
        rw [epochStep_char args l k st hst hb hc hbe]
        exact decide_eq_true hsp
      rw [runEpochs_cons_stopped args st k _ _ hstop2,
        epochStep_char args l k st hst hb hc hbe]
      have hse : stopEpochFrom args.patience l k = some k := by
        rw [stopEpochFrom_step args.patience l k hk, if_pos hsp]
      constructor
      · intro e he
        rw [hse] at he
        injection he with hek
        subst hek
        refine ⟨decide_eq_true hsp, ?_, rfl, ?_⟩
        · show st.epochs_run + 1 = k + 1
          rw [hr]
        · have hr1 : k + 1 - k = 1 := by omega
          rw [hr1, List.range'_one]
          have hp1 : List.filter (fun x =>
              decide (x % args.checkpoint_epoch = 0 ∧ x ≠ 0 ∧ x ≠ k)) [k] = [] := by simp
          rw [hp1]
          show st.ckpts ++ (if cntAfter l (k + 1) ≠ args.patience ∧
              k % args.checkpoint_epoch = 0 ∧ k ≠ 0
            then [CkptEvent.periodic k] else []) = st.ckpts ++ List.map CkptEvent.periodic []
          rw [if_neg (fun hcon => hcon.1 hsp)]
          rfl
      · intro hnone
        rw [hse] at hnone
        exact Option.noConfusion hnone
    · have hchar := epochStep_char args l k st hst hb hc hbe
      have hstop2 : (epochStep args st k (l.getD k 0)).stopped = false := by
        rw [hchar]
        exact decide_eq_false hsp
      rw [runEpochs_cons_go args st k _ _ hstop2]
      obtain ⟨ihS, ihN⟩ := ih (k + 1) (epochStep args st k (l.getD k 0)) (by omega) (by omega)
        hstop2
        (by rw [hchar]; show st.epochs_run + 1 = k + 1; rw [hr])
        (by rw [hchar])
        (by rw [hchar])
        (by rw [hchar])
      have hse : stopEpochFrom args.patience l k = stopEpochFrom args.patience l (k + 1) := by
        rw [stopEpochFrom_step args.patience l k hk, if_neg hsp]
      constructor
      · intro e he
        rw [hse] at he
        obtain ⟨hsA, hsB, hsC, hsD⟩ := ihS e he
        obtain ⟨hke, heL, _⟩ := stopEpochFrom_some_bounds args.patience l (k + 1) e he
        refine ⟨hsA, hsB, hsC, ?_⟩
        rw [hsD, hchar]
        rw [show e + 1 - k = (e + 1 - (k + 1)) + 1 from by omega, List.range'_succ,
          List.filter_cons]
        show (st.ckpts ++ (if cntAfter l (k + 1) ≠ args.patience ∧
            k % args.checkpoint_epoch = 0 ∧ k ≠ 0
          then [CkptEvent.periodic k] else [])) ++ _ = _
        by_cases hper : k % args.checkpoint_epoch = 0 ∧ k ≠ 0
        · rw [if_pos (show cntAfter l (k + 1) ≠ args.patience ∧
              k % args.checkpoint_epoch = 0 ∧ k ≠ 0 from ⟨hsp, hper.1, hper.2⟩),
            if_pos (show (decide (k % args.checkpoint_epoch = 0 ∧ k ≠ 0 ∧ k ≠ e)) = true from
              decide_eq_true ⟨hper.1, hper.2, by omega⟩)]
          simp
        · rw [if_neg (show ¬ (cntAfter l (k + 1) ≠ args.patience ∧
              k % args.checkpoint_epoch = 0 ∧ k ≠ 0) from fun hcon => hper ⟨hcon.2.1, hcon.2.2⟩),
            if_neg (show ¬ (decide (k % args.checkpoint_epoch = 0 ∧ k ≠ 0 ∧ k ≠ e)) = true from by
              simp; intro hcon1 hcon2; exact absurd ⟨hcon1, hcon2⟩ hper)]
          simp
      · intro hnone
        rw [hse] at hnone
        obtain ⟨hsA, hsB, hsC, hsD⟩ := ihN hnone
        refine ⟨hsA, hsB, hsC, ?_⟩
        rw [hsD, hchar]
        rw [show l.length - k = (l.length - (k + 1)) + 1 from by omega, List.range'_succ,
          List.filter_cons]
        show (st.ckpts ++ (if cntAfter l (k + 1) ≠ args.patience ∧
            k % args.checkpoint_epoch = 0 ∧ k ≠ 0
          then [CkptEvent.periodic k] else [])) ++ _ = _
        by_cases hper : k % args.checkpoint_epoch = 0 ∧ k ≠ 0
        · rw [if_pos (show cntAfter l (k + 1) ≠ args.patience ∧
              k % args.checkpoint_epoch = 0 ∧ k ≠ 0 from ⟨hsp, hper.1, hper.2⟩),
            if_pos (show (decide (k % args.checkpoint_epoch = 0 ∧ k ≠ 0)) = true from
              decide_eq_true hper)]
          simp
        · rw [if_neg (show ¬ (cntAfter l (k + 1) ≠ args.patience ∧
              k % args.checkpoint_epoch = 0 ∧ k ≠ 0) from fun hcon => hper ⟨hcon.2.1, hcon.2.2⟩),
            if_neg (show ¬ (decide (k % args.checkpoint_epoch = 0 ∧ k ≠ 0)) = true from by
              simpa using hper)]
          simp

/-- Claim C4: the patience counter is reset to 0 by an epoch whose validation loss improves
the best seen so far and incremented by 1 by a non-improving epoch; the fold's epoch
loop breaks exactly at the first epoch whose counter reaches `args.patience`, i.e.
right after `patience` consecutive non-improving epochs (the last `patience` epochs
before the break all fail to improve); with no such epoch the loop consumes every
epoch of the fold. -/
theorem early_stopping_spec (args : TrainArgs) (l : List Rat) :
    (∀ (st : FoldState) (e : Nat) (loss : Rat),
      (improves st.best_loss loss → (epochStep args st e loss).patience_count = 0) ∧
      (¬ improves st.best_loss loss →
        (epochStep args st e loss).patience_count = st.patience_count + 1)) ∧
    (∀ e, stopEpoch args.patience l = some e →
      (runEpochs args initFoldState 0 l).stopped = true ∧
      (runEpochs args initFoldState 0 l).epochs_run = e + 1 ∧
      args.patience ≤ e + 1 ∧
      (∀ j, e + 1 - args.patience ≤ j → j ≤ e → ¬ improvingAt l j)) ∧
    (stopEpoch args.patience l = none →
      (runEpochs args initFoldState 0 l).stopped = false ∧
      (runEpochs args initFoldState 0 l).epochs_run = l.length) := by
  have hsf : stopEpochFrom args.patience l 0 = stopEpoch args.patience l := by
    unfold stopEpochFrom stopEpoch
    rw [Nat.sub_zero, List.range_eq_range']
  obtain ⟨mS, mN⟩ := runEpochs_char args l l.length 0 initFoldState (by omega)
    (Nat.zero_le _) rfl rfl rfl rfl rfl
  rw [List.drop_zero] at mS mN
  refine ⟨?_, ?_, ?_⟩
  · intro st e loss
    constructor
    · intro h
      unfold epochStep stepBest
      rw [if_pos h]
      unfold stepStop
      split_ifs <;> rfl
    · intro h
      unfold epochStep stepBest
      rw [if_neg h]
      unfold stepStop
      split_ifs <;> rfl
  · intro e he
    obtain ⟨hA, hB, _, _⟩ := mS e (by rw [hsf, he])
    have hcnt : cntAfter l (e + 1) = args.patience :=
      (stopEpochFrom_some_bounds args.patience l 0 e (by rw [hsf, he])).2.2
    refine ⟨hA, hB, ?_, ?_⟩
    · have := cntAfter_le l (e + 1)
      omega
    · intro j hj1 hj2
      exact cntAfter_window l (e + 1) j (by omega) (by omega)
  · intro hn
    obtain ⟨hA, hB, _, _⟩ := mN (by rw [hsf, hn])
    exact ⟨hA, hB⟩

theorem early_stopping_spec_witness :
    improves initFoldState.best_loss 5 ∧
    (epochStep ⟨2, 5⟩ initFoldState 0 5).patience_count = 0 ∧
    stopEpoch 2 [5, 6, 7] = some 2 ∧
    (runEpochs ⟨2, 5⟩ initFoldState 0 [5, 6, 7]).stopped = true ∧
    (runEpochs ⟨2, 5⟩ initFoldState 0 [5, 6, 7]).epochs_run = 3 :=
  ⟨trivial,
    ((early_stopping_spec ⟨2, 5⟩ [5, 6, 7]).1 initFoldState 0 5).1 trivial,
    by decide,
    ((early_stopping_spec ⟨2, 5⟩ [5, 6, 7]).2.1 2 (by decide)).1,
    ((early_stopping_spec ⟨2, 5⟩ [5, 6, 7]).2.1 2 (by decide)).2.1⟩

/-- Claim C3 counterexample: with validation losses [3, 2, 1] (three successive new bests),
patience 10 and checkpoint_epoch 2, epoch 1 attains a new best validation loss but no
checkpoint for epoch 1 is ever persisted: the fold's trace holds only the periodic
epoch-2 file and the fold-end best snapshot taken at epoch 2. -/
theorem checkpoint_on_best_counterexample :
    improvingAt [3, 2, 1] 1 ∧
    (runFold ⟨10, 2⟩ [3, 2, 1]).ckpts =
      [CkptEvent.periodic 2, CkptEvent.bestFinal 2] ∧
    CkptEvent.periodic 1 ∉ (runFold ⟨10, 2⟩ [3, 2, 1]).ckpts ∧
    CkptEvent.bestFinal 1 ∉ (runFold ⟨10, 2⟩ [3, 2, 1]).ckpts := by
  decide

/-- Claim C3 amended: during a fold, a checkpoint with the current model and optimizer
state is persisted on exactly the executed epochs that are positive multiples of
`checkpoint_epoch` and do not trigger the early-stopping break (the break precedes
the save), and one checkpoint with the model and optimizer state deep-copied at the
best (last improving) epoch is persisted once, after the epoch loop ends. -/
theorem checkpoint_schedule_spec (args : TrainArgs) (l : List Rat) :
    (runFold args l).ckpts =
      ((List.range (epochsRunSpec args.patience l)).filter (fun x =>
        decide (x % args.checkpoint_epoch = 0 ∧ x ≠ 0 ∧
          stopEpoch args.patience l ≠ some x))).map CkptEvent.periodic ++
      [CkptEvent.bestFinal (lastImp l (epochsRunSpec args.patience l))] := by
  have hsf : stopEpochFrom args.patience l 0 = stopEpoch args.patience l := by
    unfold stopEpochFrom stopEpoch
    rw [Nat.sub_zero, List.range_eq_range']
  obtain ⟨mS, mN⟩ := runEpochs_char args l l.length 0 initFoldState (by omega)
    (Nat.zero_le _) rfl rfl rfl rfl rfl
  rw [List.drop_zero] at mS mN
  show (runEpochs args initFoldState 0 l).ckpts ++
      [CkptEvent.bestFinal (runEpochs args initFoldState 0 l).best_epoch] = _
  cases hse : stopEpoch args.patience l with
  | some e =>
    obtain ⟨_, _, hC, hD⟩ := mS e (by rw [hsf, hse])
    rw [hD, hC]
    rw [show epochsRunSpec args.patience l = e + 1 from by unfold epochsRunSpec; rw [hse]]
    congr 1
    show initFoldState.ckpts ++ _ = _
    rw [show initFoldState.ckpts = ([] : List CkptEvent) from rfl, List.nil_append,
      Nat.sub_zero, ← List.range_eq_range']
    congr 1
    apply List.filter_congr
    intro x _
    rw [decide_eq_decide]
    constructor
    · rintro ⟨a, b, c⟩
      refine ⟨a, b, fun hq => c ?_⟩
      injection hq with hq2
      exact hq2.symm
    · rintro ⟨a, b, c⟩
      exact ⟨a, b, fun hq => c (by rw [hq])⟩
  | none =>
    obtain ⟨_, _, hC, hD⟩ := mN (by rw [hsf, hse])
    rw [hD, hC]
    rw [show epochsRunSpec args.patience l = l.length from by unfold epochsRunSpec; rw [hse]]
    congr 1
    show initFoldState.ckpts ++ _ = _
    rw [show initFoldState.ckpts = ([] : List CkptEvent) from rfl, List.nil_append,
      Nat.sub_zero, ← List.range_eq_range']
    congr 1
    apply List.filter_congr
    intro x _
    rw [decide_eq_decide]
    constructor
    · rintro ⟨a, b⟩
      exact ⟨a, b, fun hq => Option.noConfusion hq⟩
    · rintro ⟨a, b, _⟩
      exact ⟨a, b⟩

/-!  `evaluation_utils.save_predictions` and `bin_cross_entr_each_crop`.  The model,
the softmax and torch tensors are external: a batch is embedded as the per-sample
field ids and the per-sample probability rows `softmax(model(X))` it produces, and
tensor ops are defined exactly where torch defines them (`Option` is a raised
runtime error). -/

/-- One batch yielded by the prediction loader: per-sample field ids and per-sample
class-probability rows. -/
structure PredBatch where
  fids : List Int
  probs : List (List Rat)

/-- One exported prediction record (`fid`, `crop_id`, `crop_name`, `crop_probs`). -/
structure PredRecord where
  fid : Int
  crop_id : Int
  crop_name : String
  crop_probs : List Rat

/-- The dictionary `torch.load` yields: the epoch and the model state it holds (the
state is identified abstractly by a numeral). -/
structure Ckpt where
  epoch : Nat
  model_state : Nat

/-- Helper for `np.argmax`: fold over the tail keeping the first maximal index. -/
def argmaxAux : List Rat → Nat → Nat → Rat → Nat
  | [], _, bi, _ => bi
  | x :: xs, i, bi, bv =>
    if bv < x then argmaxAux xs (i + 1) i x else argmaxAux xs (i + 1) bi bv

/-- `np.argmax`: index of the first maximal entry (0 on an empty vector). -/
def npArgmax : List Rat → Nat
  | [] => 0
  | x :: xs => argmaxAux xs 1 0 x

/-- `save_predictions` (lines 138-176): when the checkpoint file exists, load its
model state, iterate the loader and append one record per batch built from index
`[0]` — the first sample — of the batch's fids and probability rows; when it does
not, print `INFO: no best model found ...` and do nothing.  The result is the
records written (`none` when nothing is written) and the model state after the
call. -/
def save_predictions (ckpt : Option Ckpt) (model_state : Nat) (batches : List PredBatch)
    (label_ids : List Int) (label_names : List String) :
    Option (List PredRecord) × Nat :=
  match ckpt with
  | none => (none, model_state)
  | some c =>
    (some (batches.map (fun b =>
      ⟨b.fids.getD 0 0,
       label_ids.getD (npArgmax (b.probs.getD 0 [])) 0,
       label_names.getD (npArgmax (b.probs.getD 0 [])) "",
       b.probs.getD 0 []⟩)), c.model_state)

/-- Claim C2 counterexample: with an existing checkpoint and one batch of two samples, the
export holds one record, not one per sample. -/
theorem save_predictions_per_sample_counterexample :
    ((save_predictions (some ⟨3, 7⟩) 0 [⟨[10, 11], [[1, 0], [0, 1]]⟩] [1, 2]
        ["Wheat", "Barley"]).1.map List.length) = some 1 ∧
    ([(⟨[10, 11], [[1, 0], [0, 1]]⟩ : PredBatch)].map (fun b => b.fids.length)).sum = 2 :=
  ⟨rfl, rfl⟩

/-- Claim C2 amended: for every run whose checkpoint exists, the export holds exactly one
record per batch of the loader (so one per sample only when the batch size is 1),
and each record carries the batch's first sample: its field id, the argmax class of
its probability row mapped through `label_ids`/`label_names`, and that full row. -/
theorem save_predictions_per_batch (c : Ckpt) (ms : Nat) (batches : List PredBatch)
    (ids : List Int) (ns : List String) :
    ∀ out, (save_predictions (some c) ms batches ids ns).1 = some out →
      out.length = batches.length ∧
      out = batches.map (fun b =>
        ⟨b.fids.getD 0 0, ids.getD (npArgmax (b.probs.getD 0 [])) 0,
         ns.getD (npArgmax (b.probs.getD 0 [])) "", b.probs.getD 0 []⟩) := by
  intro out h
  injection h with h2
  rw [← h2]
  exact ⟨List.length_map _ _, rfl⟩

theorem save_predictions_per_batch_witness :
    (save_predictions (some ⟨3, 7⟩) 0 [⟨[10, 11], [[1, 0], [0, 1]]⟩] [1, 2]
        ["Wheat", "Barley"]).1 = some [⟨10, 1, "Wheat", [1, 0]⟩] ∧
    ([(⟨10, 1, "Wheat", [1, 0]⟩ : PredRecord)]).length =
      ([(⟨[10, 11], [[1, 0], [0, 1]]⟩ : PredBatch)]).length :=
  ⟨rfl,
    ((save_predictions_per_batch ⟨3, 7⟩ 0 [⟨[10, 11], [[1, 0], [0, 1]]⟩] [1, 2]
        ["Wheat", "Barley"]) [⟨10, 1, "Wheat", [1, 0]⟩] rfl).1⟩

/-- Claim C9: when the checkpoint path does not exist, `save_predictions` returns without
raising, produces no prediction output, and leaves the model state untouched (the
branch only prints an informational message, which is outside the embedding). -/
theorem save_predictions_missing_ckpt (ms : Nat) (batches : List PredBatch)
    (ids : List Int) (ns : List String) :
    save_predictions none ms batches ids ns = (none, ms) := rfl

/-- The one-hot target of `bin_cross_entr_each_crop`:
`torch.FloatTensor(args.batch_size, classes)` zeroed, then
`scatter_(1, y_true.view(-1, 1), 1)`; scatter demands that the index rows fit in the
allocated rows and that every label be a valid column. -/
def torchScatterOnehot (batch_size classes : Nat) (y_true : List Nat) :
    Option (List (List Rat)) :=
  if y_true.length ≤ batch_size ∧ ∀ y ∈ y_true, y < classes then
    some ((List.range batch_size).map (fun r =>
      (List.range classes).map (fun cI => if y_true.getD r classes = cI then 1 else 0)))
  else none

/-- Column `m[:, i]` of a tensor held as rows; defined when every row has column `i`. -/
def tensorColumn (m : List (List Rat)) (i : Nat) : Option (List Rat) :=
  if ∀ r ∈ m, i < r.length then some (m.map (fun r => r.getD i 0)) else none

/-- `nn.BCELoss()(p, t)` pairs its arguments elementwise and raises on a shape
mismatch; the numeric log-loss over the pairs is external, so the embedded value is
the paired list. -/
def bceLossPairs (p t : List Rat) : Option (List (Rat × Rat)) :=
  if p.length = t.length then some (p.zip t) else none

/-- The `for i in range(classes)` accumulation of `bin_cross_entr_each_crop`. -/
def bceColumns (y_prob onehot : List (List Rat)) : Nat → Option (List (List (Rat × Rat)))
  | 0 => some []
  | i + 1 =>
    (bceColumns y_prob onehot i).bind (fun acc =>
      (tensorColumn y_prob i).bind (fun pc =>
        (tensorColumn onehot i).bind (fun tc =>
          (bceLossPairs pc tc).map (fun v => acc ++ [v]))))

theorem bceColumns_succ (y_prob onehot : List (List Rat)) (i : Nat) :
    bceColumns y_prob onehot (i + 1) =
      (bceColumns y_prob onehot i).bind (fun acc =>
        (tensorColumn y_prob i).bind (fun pc =>
          (tensorColumn onehot i).bind (fun tc =>
            (bceLossPairs pc tc).map (fun v => acc ++ [v])))) := rfl

/-- `bin_cross_entr_each_crop(logprobs, y_true, classes, device, args)` with the
softmax made an explicit shape-preserving external op `sm`. -/
def bin_cross_entr_each_crop (sm : List (List Rat) → List (List Rat))
    (logprobs : List (List Rat)) (y_true : List Nat) (classes batch_size : Nat) :
    Option (List (List (Rat × Rat))) :=
  match torchScatterOnehot batch_size classes y_true with
  | none => none
  | some onehot => bceColumns (sm logprobs) onehot classes

/-- DataLoader batching with `drop_last=True`: only the full `b`-sized chunks. -/
def dropLastBatches {α : Type} (xs : List α) (b : Nat) : List (List α) :=
  (List.range (xs.length / b)).map (fun i => (xs.drop (i * b)).take b)

theorem bceColumns_some (y_prob onehot : List (List Rat)) (n : Nat) :
    ∀ out, bceColumns y_prob onehot n = some out →
      ∀ i, i < n → ∃ pc tc pairs, tensorColumn y_prob i = some pc ∧
        tensorColumn onehot i = some tc ∧ bceLossPairs pc tc = some pairs := by
  induction n with
  | zero => intro out _ i hi; omega
  | succ m ih =>
    intro out h i hi
    rw [bceColumns_succ] at h
    obtain ⟨acc, hacc, h⟩ := Option.bind_eq_some.mp h
    obtain ⟨pc, hpc, h⟩ := Option.bind_eq_some.mp h
    obtain ⟨tc, htc, h⟩ := Option.bind_eq_some.mp h
    obtain ⟨v, hbp, _⟩ := Option.map_eq_some'.mp h
    rcases Nat.lt_succ_iff_lt_or_eq.mp hi with hi' | rfl
    · exact ih acc hacc i hi'
    · exact ⟨pc, tc, v, hpc, htc, hbp⟩

/-- Claim C10: `bin_cross_entr_each_crop` allocates its one-hot target with exactly
`args.batch_size` rows, so (with at least one class) its per-class BCE is
well-defined only when the incoming batch holds exactly `batch_size` samples; the
training loop guarantees this precondition for the train and validation loaders by
building them with `drop_last=True`, every batch of which has exactly `batch_size`
elements. -/
theorem bin_cross_entr_batch_size (sm : List (List Rat) → List (List Rat))
    (logprobs : List (List Rat)) (y_true : List Nat) (classes batch_size : Nat)
    (hsm : (sm logprobs).length = logprobs.length) (hc : 1 ≤ classes) :
    (∀ out, bin_cross_entr_each_crop sm logprobs y_true classes batch_size = some out →
      logprobs.length = batch_size) ∧
    (∀ (α : Type) (xs : List α) (b : Nat), 0 < b →
      ∀ batch, batch ∈ dropLastBatches xs b → batch.length = b) := by
  constructor
  · intro out h
    unfold bin_cross_entr_each_crop at h
    cases hoh : torchScatterOnehot batch_size classes y_true with
    | none => rw [hoh] at h; exact Option.noConfusion h
    | some onehot =>
      rw [hoh] at h
      have hlen : onehot.length = batch_size := by
        unfold torchScatterOnehot at hoh
        split_ifs at hoh
        · injection hoh with h2
          rw [← h2, List.length_map, List.length_range]
      obtain ⟨pc, tc, pairs, hpc, htc, hbp⟩ :=
        bceColumns_some (sm logprobs) onehot classes out h 0 hc
      have hpl : pc.length = logprobs.length := by
        unfold tensorColumn at hpc
        split_ifs at hpc
        · injection hpc with h2
          rw [← h2, List.length_map, hsm]
      have htl : tc.length = batch_size := by
        unfold tensorColumn at htc
        split_ifs at htc
        · injection htc with h2
          rw [← h2, List.length_map, hlen]
      have hpt : pc.length = tc.length := by
        unfold bceLossPairs at hbp
        split_ifs at hbp with hlen2
        · exact hlen2
      omega
  · intro α xs b hb batch hbm
    unfold dropLastBatches at hbm
    rw [List.mem_map] at hbm
    obtain ⟨i, hi, rfl⟩ := hbm
    rw [List.mem_range] at hi
    have hmul : (i + 1) * b ≤ xs.length := (Nat.le_div_iff_mul_le hb).mp hi
    have hmul2 : i * b + b ≤ xs.length := by
      rw [Nat.succ_mul] at hmul
      exact hmul
    rw [List.length_take, List.length_drop]
    omega

theorem bin_cross_entr_batch_size_witness :
    ((id : List (List Rat) → List (List Rat)) [[1, 0], [0, 1]]).length =
      ([[1, 0], [0, 1]] : List (List Rat)).length ∧
    1 ≤ 2 ∧
    (∀ out, bin_cross_entr_each_crop id [[1, 0], [0, 1]] [0, 1] 2 2 = some out →
      ([[1, 0], [0, 1]] : List (List Rat)).length = 2) ∧
    (0 < 2 ∧ ∀ batch, batch ∈ dropLastBatches [1, 2, 3, 4, 5] 2 → batch.length = 2) :=
  ⟨rfl, by omega,
    (bin_cross_entr_batch_size id [[1, 0], [0, 1]] [0, 1] 2 2 rfl (by omega)).1,
    ⟨by omega,
      (bin_cross_entr_batch_size id [[1, 0], [0, 1]] [0, 1] 2 2 rfl (by omega)).2
        Nat [1, 2, 3, 4, 5] 2 (by omega)⟩⟩

end AI4Food
